import Mathlib

set_option maxRecDepth 4000

/-!
Verification of the NukedOne/viper repository.

The repository contains two generations of a small scripting language:
a self-contained prototype (`spam.py`: lexer, Pratt parser, tree-walking
evaluator, fixed fibonacci demo driver) and an extended implementation
(`viper/_parser.py` self-evaluating AST nodes plus `viper/interpreter.py`
runtime with globals/locals/depth).

Python numbers in these programs are floats holding small integers; we
model a Python value (`float`, `bool`, or `None`) as `Option ℚ`, with
`True = 1`, `False = 0` and `none` for `None`; all arithmetic performed
by the demo programs is exact, so `ℚ` matches the float behaviour on
every value these claims touch.  Python `dict` is modelled as an
association list observed through lookup/insert/erase.  Recursion through
the function table and through loops is bounded by explicit fuel (an
extra `Nat` argument consumed once per call); running out of fuel is the
distinguished error `.fuel`, never confused with the program's own
failure modes.
-/

instance {ε α : Type} [DecidableEq ε] [DecidableEq α] : DecidableEq (Except ε α) :=
  fun x y =>
    match x, y with
    | .error a, .error b =>
        if h : a = b then .isTrue (by rw [h]) else .isFalse (by intro hh; cases hh; exact h rfl)
    | .ok a, .ok b =>
        if h : a = b then .isTrue (by rw [h]) else .isFalse (by intro hh; cases hh; exact h rfl)
    | .error _, .ok _ => .isFalse (by intro hh; cases hh)
    | .ok _, .error _ => .isFalse (by intro hh; cases hh)

/-- A Python runtime value as used by both interpreters: `some q` for a
float/bool (bools are their numeric values, as in Python where
`True == 1`), `none` for Python `None`. -/
abbrev Val := Option ℚ

/-- Python truthiness restricted to the values that occur here:
`None` and `0` are falsy, every other number is truthy. -/
def truthy : Val → Bool
  | none => false
  | some q => decide (q ≠ 0)

/-- A Python `dict` with string keys, modelled as an association list
without duplicate-key observations: lookup returns the first (unique)
binding, insert overwrites in place or appends, erase removes the key. -/
abbrev Dict (α : Type) := List (String × α)

/-- Dictionary lookup (`d[k]` / `k in d`). -/
def Dict.get? {α : Type} : Dict α → String → Option α
  | [], _ => none
  | (k, v) :: rest, key => if k = key then some v else Dict.get? rest key

/-- Dictionary write `d[k] = v`: overwrite the existing binding in place,
or append a fresh one. -/
def Dict.insert {α : Type} : Dict α → String → α → Dict α
  | [], key, val => [(key, val)]
  | (k, v) :: rest, key, val =>
      if k = key then (k, val) :: rest else (k, v) :: Dict.insert rest key val

/-- Dictionary delete `del d[k]`: `none` when the key is absent (Python
raises `KeyError` there; callers turn `none` into their error). -/
def Dict.erase? {α : Type} : Dict α → String → Option (Dict α)
  | [], _ => none
  | (k, v) :: rest, key =>
      if k = key then some rest
      else (Dict.erase? rest key).map (fun d => (k, v) :: d)

/-! ## Python character predicates (ASCII inputs only) -/

/-- Python `str.isspace` on the characters that occur in these sources. -/
def pyIsSpace (c : Char) : Bool :=
  c == ' ' || c == '\t' || c == '\n' || c == '\r' || c == '\x0b' || c == '\x0c'

/-- Python `str.isalpha` on ASCII input. -/
def pyIsAlpha (c : Char) : Bool := c.isAlpha

/-- Python `str.isdigit` on ASCII input. -/
def pyIsDigit (c : Char) : Bool := c.isDigit

/-- The identifier-continuation test of `Tokenizer.identifier`:
`isalpha or isdigit or underscore`. -/
def pyIsIdentChar (c : Char) : Bool := c.isAlpha || c.isDigit || c == '_'

/-- Python slice `s[a:b]` on a character list (clamping, never failing). -/
def pySlice (s : List Char) (a b : Nat) : List Char := (s.take b).drop a

/-- Python `float(s)` for the digit-only strings produced by the number
scanner (general float syntax is never exercised by the repository). -/
def digitsToNat (s : List Char) : Nat :=
  s.foldl (fun acc c => acc * 10 + (c.toNat - 48)) 0

/-- Numeric value of a NUMBER token (`float(token.value)`). -/
def pyFloat (s : String) : ℚ := (digitsToNat s.toList : ℚ)

/-! ## Exact arithmetic on ℚ in kernel-computable form

The library's `Rat.add`/`sub`/`mul`/`inv` are `@[irreducible]`, which
blocks `decide` on concrete program runs.  The interpreters therefore
perform their Python float arithmetic through the `mkRat`-based helpers
below; the bridge lemmas prove each helper *is* the corresponding field
operation on `ℚ`, so the embedding's arithmetic is exactly rational
arithmetic. -/

/-- Python `x + y` on numbers. -/
def qAdd (a b : ℚ) : ℚ := mkRat (a.num * b.den + b.num * a.den) (a.den * b.den)

/-- Python `x - y` on numbers. -/
def qSub (a b : ℚ) : ℚ := mkRat (a.num * b.den - b.num * a.den) (a.den * b.den)

/-- Python `x * y` on numbers. -/
def qMul (a b : ℚ) : ℚ := mkRat (a.num * b.num) (a.den * b.den)

/-- Rational inverse in `mkRat` form (0 maps to 0, only applied to
nonzero divisors by the interpreters). -/
def qInv (b : ℚ) : ℚ := mkRat (b.den * b.num.sign) b.num.natAbs

/-- Python `x / y` on numbers with nonzero `y`. -/
def qDiv (a b : ℚ) : ℚ := qMul a (qInv b)

/-- Python `x < y` on numbers. -/
def qLt (a b : ℚ) : Bool := decide (a.num * b.den < b.num * a.den)

/-! ## Prototype lexer (`spam.py`, `TokenKind`, `Token`, `Tokenizer`) -/

/-- Embeds `spam.py` `TokenKind`. -/
inductive TokenKind
  | PRINT | LET | NUMBER | PLUS | MINUS | STAR | SLASH | EQUAL
  | LPAREN | RPAREN | LBRACE | RBRACE | IF | ELSE | FN | RETURN
  | LT | COMMA | SEMICOLON | IDENTIFIER | EOF
deriving DecidableEq, Repr

/-- Embeds `spam.py` `Token`: a kind plus the exact source slice. -/
structure Token where
  kind : TokenKind
  value : String
deriving DecidableEq, Repr

/-- Failure modes of the prototype (`spam.py`): Python exception kinds
plus the distinguished out-of-fuel marker. -/
inductive PErr
  | fuel
  | indexError
  | unknownToken
  | assertEmpty
  | consumeMismatch
  | noPrefixHandler
  | noInfixHandler
  | unknownOperator
  | unhandledCase
  | keyError (name : String)
  | typeError
  | zeroDivision
  | attributeError
deriving DecidableEq, Repr

/-- Walk the characters from absolute index `i`, returning the first
index whose character fails `p`, or `IndexError` when the walk falls off
the end of the source. -/
def scanEndGo (p : Char → Bool) : List Char → Nat → Except PErr Nat
  | [], _ => .error .indexError
  | ch :: rest, i => if p ch then scanEndGo p rest (i + 1) else .ok i

/-- First index `≥ c` whose character fails `p`; Python's
`while self.source[c].…: c += 1` raises `IndexError` when the scan walks
past the end of the source, because the loop condition itself indexes. -/
def scanEnd (p : Char → Bool) (s : List Char) (c : Nat) : Except PErr Nat :=
  scanEndGo p (s.drop c) c

/-- Embeds `Tokenizer.identifier`: greedy scan of letters/digits/underscore from
the current cursor; returns the token and the updated cursor (`c - 1`,
as in the source, to compensate the loop's trailing `current += 1`). -/
def identTok (s : List Char) (cur : Nat) : Except PErr (Token × Nat) :=
  match scanEnd pyIsIdentChar s cur with
  | .error e => .error e
  | .ok c => .ok (⟨.IDENTIFIER, String.mk (pySlice s cur c)⟩, c - 1)

/-- Embeds `Tokenizer.number`: greedy digit scan, same cursor convention. -/
def numTok (s : List Char) (cur : Nat) : Except PErr (Token × Nat) :=
  match scanEnd pyIsDigit s cur with
  | .error e => .error e
  | .ok c => .ok (⟨.NUMBER, String.mk (pySlice s cur c)⟩, c - 1)

/-- Embeds `Tokenizer.lookahead`: compare the slice after the cursor with the
literal suffix; on success advance the cursor by its length.  Python
slicing never fails, so this is total. -/
def lookaheadTok (s : List Char) (cur : Nat) (thing : List Char) : Bool × Nat :=
  if pySlice s (cur + 1) (cur + 1 + thing.length) = thing then
    (true, cur + thing.length)
  else (false, cur)

/-- One keyword arm of `Tokenizer.tokenize`: lookahead for the literal
suffix, else fall back to identifier scanning from the original cursor. -/
def keywordCase (s : List Char) (cur : Nat) (suffix : List Char) (kw : Token) :
    Except PErr (Token × Nat) :=
  match lookaheadTok s cur suffix with
  | (true, cur') => .ok (kw, cur')
  | (false, _) => identTok s cur

/-- The body of `Tokenizer.tokenize`'s `while` loop, fuel-bounded.  The
accumulated tokens, the source and the cursor are threaded explicitly;
each iteration ends with the source's `self.current += 1`. -/
def tokenizeLoop : Nat → List Char → Nat → List Token → Except PErr (List Token)
  | 0, _, _, _ => .error .fuel
  | fuel + 1, s, cur, acc =>
    if h : cur < s.length then
      let c := s.get ⟨cur, h⟩
      if pyIsSpace c then tokenizeLoop fuel s (cur + 1) acc
      else
        let step : Except PErr (Token × Nat) :=
          if c = 'i' then keywordCase s cur ['f'] ⟨.IF, "if"⟩
          else if c = 'f' then keywordCase s cur ['n'] ⟨.FN, "fn"⟩
          else if c = 'e' then keywordCase s cur ['l', 's', 'e'] ⟨.ELSE, "else"⟩
          else if c = 'l' then keywordCase s cur ['e', 't'] ⟨.LET, "let"⟩
          else if c = 'p' then keywordCase s cur ['r', 'i', 'n', 't'] ⟨.PRINT, "print"⟩
          else if c = 'r' then keywordCase s cur ['e', 't', 'u', 'r', 'n'] ⟨.RETURN, "return"⟩
          else if pyIsAlpha c then identTok s cur
          else if pyIsDigit c then numTok s cur
          else if c = '+' then .ok (⟨.PLUS, "+"⟩, cur)
          else if c = '-' then .ok (⟨.MINUS, "-"⟩, cur)
          else if c = '*' then .ok (⟨.STAR, "*"⟩, cur)
          else if c = '/' then .ok (⟨.SLASH, "/"⟩, cur)
          else if c = '=' then .ok (⟨.EQUAL, "="⟩, cur)
          else if c = ';' then .ok (⟨.SEMICOLON, ";"⟩, cur)
          else if c = ',' then .ok (⟨.COMMA, ","⟩, cur)
          else if c = '(' then .ok (⟨.LPAREN, "("⟩, cur)
          else if c = ')' then .ok (⟨.RPAREN, ")"⟩, cur)
          else if c = '\x7b' then .ok (⟨.LBRACE, "\x7b"⟩, cur)
          else if c = '\x7d' then .ok (⟨.RBRACE, "\x7d"⟩, cur)
          else if c = '<' then .ok (⟨.LT, "<"⟩, cur)
          else .error .unknownToken
        match step with
        | .error e => .error e
        | .ok (tok, cur') => tokenizeLoop fuel s (cur' + 1) (acc ++ [tok])
    else .ok (acc ++ [⟨.EOF, ""⟩])

/-- Embeds `Tokenizer(source).tokenize()`.  Every loop iteration advances the
cursor by at least one, so `length + 2` fuel always suffices; a `.fuel`
result is therefore unreachable from this wrapper. -/
def tokenizeP (src : String) : Except PErr (List Token) :=
  tokenizeLoop (src.toList.length + 2) src.toList 0 []

/-! ## Prototype AST (`spam.py` expression/statement dataclasses)

The Python side pairs a kind tag with a payload; the parser only ever
constructs matched pairs, which the constructors below enumerate.  An
`Expression` with kind `ASSIGN` always wraps a `BinaryExpression` tagged
`ASSIGN`, giving the `assign` constructor; a `BinaryExpression` keeps
its own six-valued kind so that the evaluator's fall-through behaviour
on a `BINARY`/`ASSIGN` pair stays representable. -/

/-- Embeds `spam.py` `BinaryExpressionKind`. -/
inductive PBinKind
  | add | sub | mul | div | lt | assign
deriving DecidableEq, Repr

/-- Prototype expressions (`spam.py` `Expression` and its payloads). -/
inductive PExpr
  | literal (q : ℚ)
  | var (name : String)
  | binary (k : PBinKind) (lhs rhs : PExpr)
  | assign (lhs rhs : PExpr)
  | call (callee : PExpr) (args : List PExpr)

/-- Prototype statements (`spam.py` `Statement` and its payloads).  A
function statement carries its name, parameter expressions and body. -/
inductive PStmt
  | letS (e : PExpr)
  | printS (e : PExpr)
  | ifS (cond : PExpr) (thenB : PStmt) (elseB : Option PStmt)
  | fnS (name : String) (args : List PExpr) (body : List PStmt)
  | block (body : List PStmt)
  | returnS (e : PExpr)
  | exprS (e : PExpr)

/-- What the prototype's function table stores per name: the declared
parameter expressions and the body statement list (`FnStatement`). -/
abbrev PFn := List PExpr × List PStmt

/-- The prototype interpreter's mutable state plus the produced standard
output, one entry per executed `print`. -/
structure PSt where
  locals : Dict Val
  functions : Dict PFn
  output : List Val

/-! ## Prototype parser (`spam.py` `Parser` and parselets) -/

/-- The fixed precedence table (`Parser.precedence`); kinds absent from
the table have precedence 0 via `dict.get(kind, 0)`. -/
def precTable : TokenKind → Nat
  | .EQUAL => 1
  | .LT => 2
  | .PLUS => 3
  | .MINUS => 3
  | .STAR => 4
  | .SLASH => 4
  | .LPAREN => 8
  | .NUMBER => 10
  | _ => 0

/-- Embeds `Parser.consume`: pop the next token, optionally asserting its kind.
An empty token list fails the `len > 0` assertion. -/
def consumeP (toks : List Token) (kind : Option TokenKind) :
    Except PErr (Token × List Token) :=
  match toks with
  | [] => .error .assertEmpty
  | t :: rest =>
      match kind with
      | none => .ok (t, rest)
      | some k => if t.kind = k then .ok (t, rest) else .error .consumeMismatch

/-- Embeds `Parser.check`: peek at the next token's kind; indexing an empty
list raises `IndexError`. -/
def checkP (toks : List Token) (k : TokenKind) : Except PErr Bool :=
  match toks with
  | [] => .error .indexError
  | t :: _ => .ok (t.kind = k)

/-- Embeds `Parser.match`: try each kind in order, consuming on the first hit. -/
def matchP (toks : List Token) : List TokenKind → Except PErr (Bool × List Token)
  | [] => .ok (false, toks)
  | k :: rest =>
      match checkP toks k with
      | .error e => .error e
      | .ok true => .ok (true, toks.drop 1)
      | .ok false => matchP toks rest

/-- Embeds `Parser.next_token_precedence`. -/
def nextPrecP (toks : List Token) : Nat :=
  match toks with
  | [] => 0
  | t :: _ => precTable t.kind

/-- Prefix dispatch of `parse_expression`: NUMBER and IDENTIFIER are the
only registered prefix parselets; anything else fails the
`prefix_parselet is not None` assertion. -/
def prefixDispatch (tok : Token) : Except PErr PExpr :=
  match tok.kind with
  | .NUMBER => .ok (.literal (pyFloat tok.value))
  | .IDENTIFIER => .ok (.var tok.value)
  | _ => .error .noPrefixHandler

/-- Embeds `BinaryOperatorParselet.parse`'s final dispatch on the token's value
string, building the binary or assignment node. -/
def binOpNode (v : String) (left right : PExpr) : Except PErr PExpr :=
  if v = "+" then .ok (.binary .add left right)
  else if v = "-" then .ok (.binary .sub left right)
  else if v = "*" then .ok (.binary .mul left right)
  else if v = "/" then .ok (.binary .div left right)
  else if v = "<" then .ok (.binary .lt left right)
  else if v = "=" then .ok (.assign left right)
  else .error .unknownOperator

mutual

/-- Embeds `Parser.parse_expression`: consume a token, apply its prefix
parselet, then fold infix parselets while the next token binds tighter. -/
def parseExpressionP : Nat → Nat → List Token → Except PErr (PExpr × List Token)
  | 0, _, _ => .error .fuel
  | fuel + 1, desired, toks =>
    match consumeP toks none with
    | .error e => .error e
    | .ok (tok, toks1) =>
        match prefixDispatch tok with
        | .error e => .error e
        | .ok left => parseLoopP fuel desired left toks1

/-- The `while desired_precedence < next_token_precedence` loop of
`parse_expression`.  The registered infix parselets are the binary
operators and LPAREN (call); other kinds fail the
`infix_parselet is not None` assertion. -/
def parseLoopP : Nat → Nat → PExpr → List Token → Except PErr (PExpr × List Token)
  | 0, _, _, _ => .error .fuel
  | fuel + 1, desired, left, toks =>
    if desired < nextPrecP toks then
      match consumeP toks none with
      | .error e => .error e
      | .ok (tok, toks1) =>
          match tok.kind with
          | .PLUS | .MINUS | .STAR | .SLASH | .EQUAL | .LT =>
              match parseExpressionP fuel (precTable tok.kind) toks1 with
              | .error e => .error e
              | .ok (right, toks2) =>
                  match binOpNode tok.value left right with
                  | .error e => .error e
                  | .ok node => parseLoopP fuel desired node toks2
          | .LPAREN =>
              match parseCallP fuel left toks1 with
              | .error e => .error e
              | .ok (node, toks2) => parseLoopP fuel desired node toks2
          | _ => .error .noInfixHandler
    else .ok (left, toks)

/-- Embeds `CallParselet.parse`: parse the comma-separated arguments.  Note the
prototype's asymmetry: the final `consume(RPAREN)` sits outside the
zero-argument guard, so an empty argument list consumes RPAREN twice. -/
def parseCallP : Nat → PExpr → List Token → Except PErr (PExpr × List Token)
  | 0, _, _ => .error .fuel
  | fuel + 1, left, toks =>
    match matchP toks [.RPAREN] with
    | .error e => .error e
    | .ok (true, toks1) =>
        match consumeP toks1 (some .RPAREN) with
        | .error e => .error e
        | .ok (_, toks2) => .ok (.call left [], toks2)
    | .ok (false, toks1) =>
        match parseCallArgsP fuel [] toks1 with
        | .error e => .error e
        | .ok (args, toks2) =>
            match consumeP toks2 (some .RPAREN) with
            | .error e => .error e
            | .ok (_, toks3) => .ok (.call left args, toks3)

/-- The `while True` argument loop of `CallParselet.parse`. -/
def parseCallArgsP : Nat → List PExpr → List Token →
    Except PErr (List PExpr × List Token)
  | 0, _, _ => .error .fuel
  | fuel + 1, acc, toks =>
    match parseExpressionP fuel 0 toks with
    | .error e => .error e
    | .ok (arg, toks1) =>
        match matchP toks1 [.COMMA] with
        | .error e => .error e
        | .ok (true, toks2) => parseCallArgsP fuel (acc ++ [arg]) toks2
        | .ok (false, toks2) => .ok (acc ++ [arg], toks2)

/-- Embeds `Parser.parse_statement`: try `let, print, fn, if, return, lbrace`
in order, falling back to an expression statement. -/
def parseStatementP : Nat → List Token → Except PErr (PStmt × List Token)
  | 0, _ => .error .fuel
  | fuel + 1, toks =>
    match matchP toks [.LET] with
    | .error e => .error e
    | .ok (true, toks1) =>
        match parseExpressionP fuel 0 toks1 with
        | .error e => .error e
        | .ok (e, toks2) =>
            match consumeP toks2 (some .SEMICOLON) with
            | .error er => .error er
            | .ok (_, toks3) => .ok (.letS e, toks3)
    | .ok (false, _) =>
    match matchP toks [.PRINT] with
    | .error e => .error e
    | .ok (true, toks1) =>
        match parseExpressionP fuel 0 toks1 with
        | .error e => .error e
        | .ok (e, toks2) =>
            match consumeP toks2 (some .SEMICOLON) with
            | .error er => .error er
            | .ok (_, toks3) => .ok (.printS e, toks3)
    | .ok (false, _) =>
    match matchP toks [.FN] with
    | .error e => .error e
    | .ok (true, toks1) =>
        match consumeP toks1 (some .IDENTIFIER) with
        | .error e => .error e
        | .ok (nameTok, toks2) =>
            match consumeP toks2 (some .LPAREN) with
            | .error e => .error e
            | .ok (_, toks3) =>
                match parseFnArgsP fuel [] toks3 with
                | .error e => .error e
                | .ok (args, toks4) =>
                    match consumeP toks4 (some .LBRACE) with
                    | .error e => .error e
                    | .ok (_, toks5) =>
                        match parseStmtsUntilRBraceP fuel [] toks5 with
                        | .error e => .error e
                        | .ok (body, toks6) =>
                            .ok (.fnS nameTok.value args body, toks6)
    | .ok (false, _) =>
    match matchP toks [.IF] with
    | .error e => .error e
    | .ok (true, toks1) =>
        match consumeP toks1 (some .LPAREN) with
        | .error e => .error e
        | .ok (_, toks2) =>
            match parseExpressionP fuel 0 toks2 with
            | .error e => .error e
            | .ok (cond, toks3) =>
                match consumeP toks3 (some .RPAREN) with
                | .error e => .error e
                | .ok (_, toks4) =>
                    match parseStatementP fuel toks4 with
                    | .error e => .error e
                    | .ok (thenB, toks5) =>
                        match matchP toks5 [.ELSE] with
                        | .error e => .error e
                        | .ok (true, toks6) =>
                            match parseStatementP fuel toks6 with
                            | .error e => .error e
                            | .ok (elseB, toks7) =>
                                .ok (.ifS cond thenB (some elseB), toks7)
                        | .ok (false, toks6) =>
                            .ok (.ifS cond thenB none, toks6)
    | .ok (false, _) =>
    match matchP toks [.RETURN] with
    | .error e => .error e
    | .ok (true, toks1) =>
        match parseExpressionP fuel 0 toks1 with
        | .error e => .error e
        | .ok (e, toks2) =>
            match consumeP toks2 (some .SEMICOLON) with
            | .error er => .error er
            | .ok (_, toks3) => .ok (.returnS e, toks3)
    | .ok (false, _) =>
    match matchP toks [.LBRACE] with
    | .error e => .error e
    | .ok (true, toks1) =>
        match parseStmtsUntilRBraceP fuel [] toks1 with
        | .error e => .error e
        | .ok (body, toks2) => .ok (.block body, toks2)
    | .ok (false, _) =>
        match parseExpressionP fuel 0 toks with
        | .error e => .error e
        | .ok (e, toks2) =>
            match consumeP toks2 (some .SEMICOLON) with
            | .error er => .error er
            | .ok (_, toks3) => .ok (.exprS e, toks3)

/-- The `while not self.match([RPAREN])` parameter loop of
`parse_fn_statement` (each parameter parsed as a full expression). -/
def parseFnArgsP : Nat → List PExpr → List Token →
    Except PErr (List PExpr × List Token)
  | 0, _, _ => .error .fuel
  | fuel + 1, acc, toks =>
    match matchP toks [.RPAREN] with
    | .error e => .error e
    | .ok (true, toks1) => .ok (acc, toks1)
    | .ok (false, toks1) =>
        match parseExpressionP fuel 0 toks1 with
        | .error e => .error e
        | .ok (arg, toks2) => parseFnArgsP fuel (acc ++ [arg]) toks2

/-- The `while not self.match([RBRACE])` body loop shared by
`parse_fn_statement` and `parse_block_statement`. -/
def parseStmtsUntilRBraceP : Nat → List PStmt → List Token →
    Except PErr (List PStmt × List Token)
  | 0, _, _ => .error .fuel
  | fuel + 1, acc, toks =>
    match matchP toks [.RBRACE] with
    | .error e => .error e
    | .ok (true, toks1) => .ok (acc, toks1)
    | .ok (false, toks1) =>
        match parseStatementP fuel toks1 with
        | .error e => .error e
        | .ok (s, toks2) => parseStmtsUntilRBraceP fuel (acc ++ [s]) toks2

end

/-- Embeds `Parser.parse`: statements until the next token is EOF. -/
def parseProgramP : Nat → List Token → Except PErr (List PStmt)
  | 0, _ => .error .fuel
  | fuel + 1, toks =>
    match toks with
    | [] => .error .indexError
    | t :: _ =>
        if t.kind = .EOF then .ok []
        else
          match parseStatementP fuel toks with
          | .error e => .error e
          | .ok (s, toks1) =>
              match parseProgramP fuel toks1 with
              | .error e => .error e
              | .ok rest => .ok (s :: rest)

/-! ## Prototype evaluator (`spam.py` `Interpreter`) -/

/-- Application of a Python arithmetic/comparison operator to two values
in `Interpreter._eval`'s BINARY branch: both operands must be numbers
(`None` raises `TypeError`), division by zero raises
`ZeroDivisionError`, and `<` yields the Python bool (`1` or `0`).  The
ASSIGN kind never reaches this helper. -/
def applyBinP (k : PBinKind) (a b : Val) : Except PErr Val :=
  match a, b with
  | some x, some y =>
      match k with
      | .add => .ok (some (qAdd x y))
      | .sub => .ok (some (qSub x y))
      | .mul => .ok (some (qMul x y))
      | .div => if y = 0 then .error .zeroDivision else .ok (some (qDiv x y))
      | .lt => .ok (some (if qLt x y then 1 else 0))
      | .assign => .error .unhandledCase
  | _, _ => .error .typeError

/-- Embeds `[x.value.name for x in f.arguments]`: every declared parameter must
be a VARIABLE expression or the attribute access raises. -/
def paramNamesP : List PExpr → Except PErr (List String)
  | [] => .ok []
  | .var n :: rest =>
      match paramNamesP rest with
      | .error e => .error e
      | .ok ns => .ok (n :: ns)
  | _ => .error .attributeError

mutual

/-- Embeds `Interpreter._eval`.  The dispatch mirrors the source's `if` chain:
LITERAL, VARIABLE, BINARY (whose inner chain handles ADD..LT only, so a
BINARY node tagged ASSIGN falls through), CALL, then the final
`assert False` for the ASSIGN expression kind. -/
def evalP : Nat → PExpr → PSt → Except PErr (Val × PSt)
  | 0, _, _ => .error .fuel
  | fuel + 1, e, st =>
    match e with
    | .literal q => .ok (some q, st)
    | .var name =>
        match Dict.get? st.locals name with
        | some v => .ok (v, st)
        | none => .error (.keyError name)
    | .binary k lhs rhs =>
        if k = .assign then .error .unhandledCase
        else
          match evalP fuel lhs st with
          | .error e => .error e
          | .ok (lv, st1) =>
              match evalP fuel rhs st1 with
              | .error e => .error e
              | .ok (rv, st2) =>
                  match applyBinP k lv rv with
                  | .error e => .error e
                  | .ok v => .ok (v, st2)
    | .assign _ _ => .error .unhandledCase
    | .call callee args =>
        match callee with
        | .var fname =>
            match Dict.get? st.functions fname with
            | none => .error (.keyError fname)
            | some (params, body) =>
                match paramNamesP params with
                | .error e => .error e
                | .ok names =>
                    match evalArgsP fuel (names.zip args) [] st with
                    | .error e => .error e
                    | .ok (newLocals, st1) =>
                        let oldLocals := st1.locals
                        match execPList fuel body { st1 with locals := newLocals } with
                        | .error e => .error e
                        | .ok (retval, st2) =>
                            .ok (retval, { st2 with locals := oldLocals })
        | _ => .error .attributeError

/-- The argument-binding dict comprehension of `Interpreter._eval`'s CALL
branch: evaluate each paired argument in order under the caller's scope,
accumulating the fresh locals mapping. -/
def evalArgsP : Nat → List (String × PExpr) → Dict Val → PSt →
    Except PErr (Dict Val × PSt)
  | 0, _, _, _ => .error .fuel
  | _ + 1, [], acc, st => .ok (acc, st)
  | fuel + 1, (k, e) :: rest, acc, st =>
    match evalP fuel e st with
    | .error er => .error er
    | .ok (v, st1) => evalArgsP fuel rest (Dict.insert acc k v) st1

/-- Embeds `Interpreter.exec_stmt`.  PRINT, IF, FN, RETURN and EXPRESSION are
dispatched; LET and BLOCK reach the trailing `assert False`.  The IF
branch never consults the parsed else-branch.  The returned `Val` is the
statement's Python return value (`none` for the plain-`None` paths). -/
def execPStmt : Nat → PStmt → PSt → Except PErr (Val × PSt)
  | 0, _, _ => .error .fuel
  | fuel + 1, s, st =>
    match s with
    | .printS e =>
        match evalP fuel e st with
        | .error er => .error er
        | .ok (v, st1) => .ok (none, { st1 with output := st1.output ++ [v] })
    | .ifS cond thenB _ =>
        match evalP fuel cond st with
        | .error er => .error er
        | .ok (v, st1) =>
            if truthy v then execPStmt fuel thenB st1 else .ok (none, st1)
    | .fnS name args body =>
        .ok (none, { st with functions := Dict.insert st.functions name (args, body) })
    | .returnS e => evalP fuel e st
    | .exprS e =>
        match evalP fuel e st with
        | .error er => .error er
        | .ok (_, st1) => .ok (none, st1)
    | .letS _ => .error .unhandledCase
    | .block _ => .error .unhandledCase

/-- Embeds `Interpreter.exec`: run statements in order, short-circuiting on the
first non-`None` result. -/
def execPList : Nat → List PStmt → PSt → Except PErr (Val × PSt)
  | 0, _, _ => .error .fuel
  | _ + 1, [], st => .ok (none, st)
  | fuel + 1, s :: rest, st =>
    match execPStmt fuel s st with
    | .error er => .error er
    | .ok (some v, st1) => .ok (some v, st1)
    | .ok (none, st1) => execPList fuel rest st1

end

/-- The full prototype pipeline on a source string: tokenize, parse,
execute against empty scope and function tables (`spam.py` `main`). -/
def protoRun (src : String) (parseFuel execFuel : Nat) :
    Except PErr (Val × PSt) :=
  match tokenizeP src with
  | .error e => .error e
  | .ok toks =>
      match parseProgramP parseFuel toks with
      | .error e => .error e
      | .ok ast => execPList execFuel ast ⟨[], [], []⟩

/-- The embedded demo program of `spam.py` (the `textwrap.dedent` result
of the `source` literal: a recursive fibonacci and `print fib(10);`). -/
def fibSource : String :=
  "\nfn fib(n) \x7b\n    if (n < 2) return n;\n    return fib(n-1)+fib(n-2);\n\x7d\nprint fib(10);\n"

/-- Embeds `spam.py` `main()`, observed through the program result value and
the printed output. -/
def protoMainResult : Except PErr (Val × List Val) :=
  (protoRun fibSource 64 8192).map (fun r => (r.1, r.2.output))

/-- Tokenize-then-parse pipeline of the prototype (the first two steps
of `main`), for claims about the parser. -/
def protoParseProgram (src : String) (fuel : Nat) : Except PErr (List PStmt) :=
  match tokenizeP src with
  | .error e => .error e
  | .ok toks => parseProgramP fuel toks

/-! ## Extended implementation (`viper/_parser.py` nodes,
`viper/interpreter.py` runtime)

Each AST node of the extended implementation carries its own
`eval`/`exec`; the inductives below enumerate those node classes and the
fuel-indexed functions embed their method bodies.  The runtime state is
`globals`/`locals`/`functions`/`depth` plus the printed output. -/

/-- Embeds `viper/_parser.py` `BinaryExpressionKind`. -/
inductive VBinKind
  | add | sub | mul | div | lt | assign
deriving DecidableEq, Repr

/-- Extended expressions: `LiteralExpression`, `VariableExpression`,
`BinaryExpression`, `AssignExpression` (its own class here),
`CallExpression`. -/
inductive VExpr
  | lit (q : ℚ)
  | var (name : String)
  | binary (k : VBinKind) (lhs rhs : VExpr)
  | assignE (lhs rhs : VExpr)
  | call (callee : VExpr) (args : List VExpr)

/-- Extended statements, including the new `WhileStatement` and
`ForStatement`; a function body is a single statement. -/
inductive VStmt
  | letS (e : VExpr)
  | printS (e : VExpr)
  | ifS (cond : VExpr) (thenB : VStmt) (elseB : Option VStmt)
  | fnS (name : String) (args : List VExpr) (body : VStmt)
  | block (body : List VStmt)
  | returnS (e : VExpr)
  | whileS (cond : VExpr) (body : VStmt)
  | forS (init cond adv : VExpr) (body : VStmt)
  | exprS (e : VExpr)

/-- What the extended function table stores per name (`FnStatement`):
parameter expressions and the single body statement. -/
abbrev VFn := List VExpr × VStmt

/-- Failure modes of the extended implementation. -/
inductive VErr
  | fuel
  | notDefined (name : String)
  | keyError (name : String)
  | typeError
  | zeroDivision
  | invariant
  | attributeError
deriving DecidableEq, Repr

/-- Embeds `viper/interpreter.py` `Interpreter` state (globals, locals,
function table, block-nesting depth) plus the printed output. -/
structure VSt where
  globals : Dict Val
  locals : Dict Val
  functions : Dict VFn
  depth : Int
  output : List Val

/-- Embeds `Interpreter.resolve`: locals first, then globals, else the fatal
"is not defined" error (`is_local`/`is_global` are the two `in` tests). -/
def resolveV (st : VSt) (name : String) : Except VErr Val :=
  match Dict.get? st.locals name with
  | some v => .ok v
  | none =>
      match Dict.get? st.globals name with
      | some v => .ok v
      | none => .error (.notDefined name)

/-- Operator application in `BinaryExpression.eval` for the five
arithmetic/comparison kinds; identical Python operator semantics as in
the prototype.  The ASSIGN kind never reaches this helper. -/
def applyBinV (k : VBinKind) (a b : Val) : Except VErr Val :=
  match a, b with
  | some x, some y =>
      match k with
      | .add => .ok (some (qAdd x y))
      | .sub => .ok (some (qSub x y))
      | .mul => .ok (some (qMul x y))
      | .div => if y = 0 then .error .zeroDivision else .ok (some (qDiv x y))
      | .lt => .ok (some (if qLt x y then 1 else 0))
      | .assign => .ok none
  | _, _ => .error .typeError

/-- Embeds `[arg.name for arg in f.arguments]` in `CallExpression.eval`: every
declared parameter must be a `VariableExpression`. -/
def paramNamesV : List VExpr → Except VErr (List String)
  | [] => .ok []
  | .var n :: rest =>
      match paramNamesV rest with
      | .error e => .error e
      | .ok ns => .ok (n :: ns)
  | _ => .error .attributeError

mutual

/-- Embeds `Expression.eval` dispatch over the extended node classes.
`BinaryExpression.eval`'s `match` has no ASSIGN case, so a BINARY node
tagged ASSIGN evaluates to `None` without touching its operands.
`AssignExpression.eval` checks the variable target, branches on the
*current* depth, evaluates the right side, then writes into the mapping
of the chosen scope — and yields `None`. -/
def evalV : Nat → VExpr → VSt → Except VErr (Val × VSt)
  | 0, _, _ => .error .fuel
  | fuel + 1, e, st =>
    match e with
    | .lit q => .ok (some q, st)
    | .var name =>
        match resolveV st name with
        | .error er => .error er
        | .ok v => .ok (v, st)
    | .binary k lhs rhs =>
        if k = .assign then .ok (none, st)
        else
          match evalV fuel lhs st with
          | .error er => .error er
          | .ok (lv, st1) =>
              match evalV fuel rhs st1 with
              | .error er => .error er
              | .ok (rv, st2) =>
                  match applyBinV k lv rv with
                  | .error er => .error er
                  | .ok v => .ok (v, st2)
    | .assignE lhs rhs =>
        match lhs with
        | .var name =>
            if st.depth > 0 then
              match evalV fuel rhs st with
              | .error er => .error er
              | .ok (rv, st1) =>
                  .ok (none, { st1 with locals := Dict.insert st1.locals name rv })
            else
              match evalV fuel rhs st with
              | .error er => .error er
              | .ok (rv, st1) =>
                  .ok (none, { st1 with globals := Dict.insert st1.globals name rv })
        | _ => .error .invariant
    | .call callee args =>
        match callee with
        | .var fname =>
            match Dict.get? st.functions fname with
            | none => .error (.keyError fname)
            | some (params, body) =>
                match paramNamesV params with
                | .error er => .error er
                | .ok names =>
                    match evalArgsV fuel (names.zip args) [] st with
                    | .error er => .error er
                    | .ok (newLocals, st1) =>
                        let oldLocals := st1.locals
                        match execV fuel body { st1 with locals := newLocals } with
                        | .error er => .error er
                        | .ok (retval, st2) =>
                            .ok (retval, { st2 with locals := oldLocals })
        | _ => .error .invariant

/-- The argument-binding dict comprehension of `CallExpression.eval`:
arguments evaluate in order under the caller's still-active locals. -/
def evalArgsV : Nat → List (String × VExpr) → Dict Val → VSt →
    Except VErr (Dict Val × VSt)
  | 0, _, _, _ => .error .fuel
  | _ + 1, [], acc, st => .ok (acc, st)
  | fuel + 1, (k, e) :: rest, acc, st =>
    match evalV fuel e st with
    | .error er => .error er
    | .ok (v, st1) => evalArgsV fuel rest (Dict.insert acc k v) st1

/-- Embeds `Statement.exec` dispatch over the extended node classes. -/
def execV : Nat → VStmt → VSt → Except VErr (Val × VSt)
  | 0, _, _ => .error .fuel
  | fuel + 1, s, st =>
    match s with
    | .letS e =>
        match evalV fuel e st with
        | .error er => .error er
        | .ok (_, st1) => .ok (none, st1)
    | .printS e =>
        match evalV fuel e st with
        | .error er => .error er
        | .ok (v, st1) => .ok (none, { st1 with output := st1.output ++ [v] })
    | .ifS cond thenB elseB =>
        match evalV fuel cond st with
        | .error er => .error er
        | .ok (v, st1) =>
            if truthy v then execV fuel thenB st1
            else
              match elseB with
              | some b => execV fuel b st1
              | none => .ok (none, st1)
    | .fnS name args body =>
        .ok (none, { st with functions := Dict.insert st.functions name (args, body) })
    | .block body =>
        match execVList fuel body { st with depth := st.depth + 1 } with
        | .error er => .error er
        | .ok (v, st1) => .ok (v, { st1 with depth := st1.depth - 1 })
    | .returnS e => evalV fuel e st
    | .whileS cond body =>
        match whileLoopV fuel cond body st with
        | .error er => .error er
        | .ok st1 => .ok (none, st1)
    | .forS init cond adv body =>
        match init with
        | .assignE (.var name) _ =>
            match evalV fuel init st with
            | .error er => .error er
            | .ok (_, st1) =>
                match forLoopV fuel cond body adv st1 with
                | .error er => .error er
                | .ok st2 =>
                    if st2.depth > 0 then
                      match Dict.erase? st2.locals name with
                      | some d => .ok (none, { st2 with locals := d })
                      | none => .error (.keyError name)
                    else
                      match Dict.erase? st2.globals name with
                      | some d => .ok (none, { st2 with globals := d })
                      | none => .error (.keyError name)
        | _ => .error .invariant
    | .exprS e =>
        match evalV fuel e st with
        | .error er => .error er
        | .ok (_, st1) => .ok (none, st1)

/-- Embeds `Interpreter._exec`: statements in order, stopping at the first
non-`None` result. -/
def execVList : Nat → List VStmt → VSt → Except VErr (Val × VSt)
  | 0, _, _ => .error .fuel
  | _ + 1, [], st => .ok (none, st)
  | fuel + 1, s :: rest, st =>
    match execV fuel s st with
    | .error er => .error er
    | .ok (some v, st1) => .ok (some v, st1)
    | .ok (none, st1) => execVList fuel rest st1

/-- The `while self.condition.eval(…): self.body.exec(…)` loop of
`WhileStatement.exec`: the body's result is discarded every iteration. -/
def whileLoopV : Nat → VExpr → VStmt → VSt → Except VErr VSt
  | 0, _, _, _ => .error .fuel
  | fuel + 1, cond, body, st =>
    match evalV fuel cond st with
    | .error er => .error er
    | .ok (v, st1) =>
        if truthy v then
          match execV fuel body st1 with
          | .error er => .error er
          | .ok (_, st2) => whileLoopV fuel cond body st2
        else .ok st1

/-- The condition/body/advancement loop of `ForStatement.exec`. -/
def forLoopV : Nat → VExpr → VStmt → VExpr → VSt → Except VErr VSt
  | 0, _, _, _, _ => .error .fuel
  | fuel + 1, cond, body, adv, st =>
    match evalV fuel cond st with
    | .error er => .error er
    | .ok (v, st1) =>
        if truthy v then
          match execV fuel body st1 with
          | .error er => .error er
          | .ok (_, st2) =>
              match evalV fuel adv st2 with
              | .error er => .error er
              | .ok (_, st3) => forLoopV fuel cond body adv st3
        else .ok st1

end

/-- The empty extended-interpreter start state (depth 0, nothing bound). -/
def vSt0 : VSt := ⟨[], [], [], 0, []⟩

/-- The AST of `for (let i = 0; i < 3; i = i + 1) { print i; }` as built
by the extended parser (`parse_for_statement`). -/
def forDemo : VStmt :=
  .forS (.assignE (.var "i") (.lit 0))
        (.binary .lt (.var "i") (.lit 3))
        (.assignE (.var "i") (.binary .add (.var "i") (.lit 1)))
        (.block [.printS (.var "i")])

/-! ## Frame properties of the extended runtime -/

/-- Successful execution leaves the depth where it started, and — when
started from inside at least one block (`1 ≤ depth`) — leaves the
globals mapping untouched, because the depth-based write rule then
always selects `locals`. -/
def framePair (st st' : VSt) : Prop :=
  st'.depth = st.depth ∧ (1 ≤ st.depth → st'.globals = st.globals)

/-! ## Equivalence of the two evaluators on pure arithmetic -/

/-- The operators shared by both generations' expression grammars
(everything except assignment). -/
inductive AOp
  | add | sub | mul | div | lt
deriving DecidableEq, Repr

/-- Expressions built only from `+ - * / <` and numeric literals. -/
inductive ArithExpr
  | lit (q : ℚ)
  | bin (op : AOp) (l r : ArithExpr)
deriving DecidableEq, Repr

/-- Reading such an expression as a prototype AST. -/
def AOp.toP : AOp → PBinKind
  | .add => .add
  | .sub => .sub
  | .mul => .mul
  | .div => .div
  | .lt => .lt

/-- Reading such an expression as an extended AST. -/
def AOp.toV : AOp → VBinKind
  | .add => .add
  | .sub => .sub
  | .mul => .mul
  | .div => .div
  | .lt => .lt

/-- The prototype AST of an operator-only expression. -/
def ArithExpr.toProto : ArithExpr → PExpr
  | .lit q => .literal q
  | .bin op l r => .binary op.toP l.toProto r.toProto

/-- The extended AST of an operator-only expression. -/
def ArithExpr.toExt : ArithExpr → VExpr
  | .lit q => .lit q
  | .bin op l r => .binary op.toV l.toExt r.toExt

/-- Node count, used as a sufficient fuel bound. -/
def ArithExpr.size : ArithExpr → Nat
  | .lit _ => 1
  | .bin _ l r => l.size + r.size + 1

/-- Reference evaluation of an operator-only expression: left-to-right,
`none` exactly on division by zero. -/
def aEval : ArithExpr → Option ℚ
  | .lit q => some q
  | .bin op l r =>
      match aEval l with
      | none => none
      | some a =>
          match aEval r with
          | none => none
          | some b =>
              match op with
              | .add => some (qAdd a b)
              | .sub => some (qSub a b)
              | .mul => some (qMul a b)
              | .div => if b = 0 then none else some (qDiv a b)
              | .lt => some (if qLt a b then 1 else 0)

/-! ## Claims -/

/-- The empty prototype interpreter state (`Interpreter({}, {})`). -/
def pSt0 : PSt := ⟨[], [], []⟩

/-- The expression `(1 + 2 * 3) < 7`, used as the C6 witness input. -/
def arithDemo : ArithExpr :=
  .bin .lt (.bin .add (.lit 1) (.bin .mul (.lit 2) (.lit 3))) (.lit 7)

/-! ## Theorems -/

theorem Dict.get?_insert_self {α : Type} (d : Dict α) (k : String) (v : α) :
    Dict.get? (Dict.insert d k v) k = some v := by
  induction d with
  | nil => simp [Dict.insert, Dict.get?]
  | cons hd tl ih =>
      obtain ⟨k', v'⟩ := hd
      by_cases h : k' = k
      · simp [Dict.insert, Dict.get?, h]
      · simp [Dict.insert, Dict.get?, h, ih]

theorem qAdd_eq (a b : ℚ) : qAdd a b = a + b := by
  have ha : ((a.den : ℚ)) ≠ 0 := by exact_mod_cast a.den_nz
  have hb : ((b.den : ℚ)) ≠ 0 := by exact_mod_cast b.den_nz
  rw [qAdd, Rat.mkRat_eq_div, eq_comm]
  conv_lhs => rw [← Rat.num_div_den a, ← Rat.num_div_den b]
  push_cast
  field_simp

theorem qSub_eq (a b : ℚ) : qSub a b = a - b := by
  have ha : ((a.den : ℚ)) ≠ 0 := by exact_mod_cast a.den_nz
  have hb : ((b.den : ℚ)) ≠ 0 := by exact_mod_cast b.den_nz
  rw [qSub, Rat.mkRat_eq_div, eq_comm]
  conv_lhs => rw [← Rat.num_div_den a, ← Rat.num_div_den b]
  push_cast
  field_simp
  ring

theorem qMul_eq (a b : ℚ) : qMul a b = a * b := by
  have ha : ((a.den : ℚ)) ≠ 0 := by exact_mod_cast a.den_nz
  have hb : ((b.den : ℚ)) ≠ 0 := by exact_mod_cast b.den_nz
  rw [qMul, Rat.mkRat_eq_div, eq_comm]
  conv_lhs => rw [← Rat.num_div_den a, ← Rat.num_div_den b]
  push_cast
  field_simp

theorem qInv_eq (b : ℚ) : qInv b = b⁻¹ := by
  rcases eq_or_ne b 0 with rfl | hb
  · rw [inv_zero]; decide
  · have hnum : b.num ≠ 0 := Rat.num_ne_zero.2 hb
    have hsign : b.num.sign ≠ 0 := by
      intro h
      exact hnum (Int.sign_eq_zero_iff_zero.mp h)
    have h2 : b.num.sign * b.num.sign = 1 := by
      rcases lt_trichotomy b.num 0 with h | h | h
      · rw [Int.sign_eq_neg_one_of_neg h]; rfl
      · exact absurd h hnum
      · rw [Int.sign_eq_one_of_pos h]; rfl
    have habs : (b.num.natAbs : ℤ) = b.num * b.num.sign := by
      have h1 := Int.sign_mul_natAbs b.num
      calc (b.num.natAbs : ℤ) = 1 * b.num.natAbs := by ring
        _ = (b.num.sign * b.num.sign) * b.num.natAbs := by rw [h2]
        _ = b.num.sign * (b.num.sign * b.num.natAbs) := by ring
        _ = b.num.sign * b.num := by rw [h1]
        _ = b.num * b.num.sign := by ring
    rw [qInv, Rat.mkRat_eq_divInt, Rat.inv_def', habs]
    exact Rat.divInt_mul_right hsign

theorem qDiv_eq (a b : ℚ) : qDiv a b = a / b := by
  rw [qDiv, qMul_eq, qInv_eq, div_eq_mul_inv]

theorem qLt_iff (a b : ℚ) : qLt a b = true ↔ a < b := by
  have ha : (0 : ℚ) < a.den := by exact_mod_cast Nat.pos_of_ne_zero a.den_nz
  have hb : (0 : ℚ) < b.den := by exact_mod_cast Nat.pos_of_ne_zero b.den_nz
  rw [qLt, decide_eq_true_iff]
  have key : a < b ↔ (a.num : ℚ) / (a.den : ℚ) < (b.num : ℚ) / (b.den : ℚ) := by
    rw [Rat.num_div_den, Rat.num_div_den]
  rw [key, div_lt_div_iff₀ ha hb]
  constructor
  · intro h
    exact_mod_cast h
  · intro h
    exact_mod_cast h

theorem framePair.refl' (st : VSt) : framePair st st := ⟨rfl, fun _ => rfl⟩

theorem framePair.trans' {s1 s2 s3 : VSt}
    (h1 : framePair s1 s2) (h2 : framePair s2 s3) : framePair s1 s3 := by
  obtain ⟨d1, g1⟩ := h1
  obtain ⟨d2, g2⟩ := h2
  exact ⟨d2.trans d1, fun h => (g2 (by rw [d1]; exact h)).trans (g1 h)⟩

theorem framePair.of_fields {s1 s2 : VSt}
    (hd : s2.depth = s1.depth) (hg : s2.globals = s1.globals) : framePair s1 s2 :=
  ⟨hd, fun _ => hg⟩

/-- Joint frame lemma over all mutually recursive evaluation functions
of the extended interpreter, by induction on fuel. -/
theorem frameAll : ∀ fuel : Nat,
    (∀ e st v st', evalV fuel e st = .ok (v, st') → framePair st st') ∧
    (∀ ps acc st d st', evalArgsV fuel ps acc st = .ok (d, st') → framePair st st') ∧
    (∀ s st v st', execV fuel s st = .ok (v, st') → framePair st st') ∧
    (∀ l st v st', execVList fuel l st = .ok (v, st') → framePair st st') ∧
    (∀ c b st st', whileLoopV fuel c b st = .ok st' → framePair st st') ∧
    (∀ c b adv st st', forLoopV fuel c b adv st = .ok st' → framePair st st') := by
  intro fuel
  induction fuel with
  | zero =>
      refine ⟨?_, ?_, ?_, ?_, ?_, ?_⟩
      · intro e st v st' h
        exact Except.noConfusion h
      · intro ps acc st d st' h
        exact Except.noConfusion h
      · intro s st v st' h
        exact Except.noConfusion h
      · intro l st v st' h
        exact Except.noConfusion h
      · intro c b st st' h
        exact Except.noConfusion h
      · intro c b adv st st' h
        exact Except.noConfusion h
  | succ n IH =>
      obtain ⟨ihE, ihA, ihS, ihL, ihW, ihF⟩ := IH
      refine ⟨?_, ?_, ?_, ?_, ?_, ?_⟩
      · -- evalV
        intro e st v st' h
        cases e with
        | lit q =>
            simp only [evalV, Except.ok.injEq, Prod.mk.injEq] at h
            obtain ⟨-, h2⟩ := h
            subst h2
            exact framePair.refl' st
        | var name =>
            cases hr : resolveV st name with
            | error er => simp [evalV, hr] at h
            | ok v0 =>
                simp only [evalV, hr, Except.ok.injEq, Prod.mk.injEq] at h
                obtain ⟨-, h2⟩ := h
                subst h2
                exact framePair.refl' st
        | binary k lhs rhs =>
            by_cases hk : k = .assign
            · simp only [evalV, if_pos hk, Except.ok.injEq, Prod.mk.injEq] at h
              obtain ⟨-, h2⟩ := h
              subst h2
              exact framePair.refl' st
            · simp only [evalV, if_neg hk] at h
              cases h1 : evalV n lhs st with
              | error er => simp [h1] at h
              | ok p =>
                  obtain ⟨lv, st1⟩ := p
                  cases h2 : evalV n rhs st1 with
                  | error er => simp [h1, h2] at h
                  | ok p2 =>
                      obtain ⟨rv, st2⟩ := p2
                      cases h3 : applyBinV k lv rv with
                      | error er => simp [h1, h2, h3] at h
                      | ok v0 =>
                          simp only [h1, h2, h3, Except.ok.injEq, Prod.mk.injEq] at h
                          obtain ⟨-, h4⟩ := h
                          subst h4
                          exact (ihE _ _ _ _ h1).trans' (ihE _ _ _ _ h2)
        | assignE lhs rhs =>
            cases lhs with
            | var name =>
                by_cases hd : st.depth > 0
                · simp only [evalV, if_pos hd] at h
                  cases h1 : evalV n rhs st with
                  | error er => simp [h1] at h
                  | ok p =>
                      obtain ⟨rv, st1⟩ := p
                      simp only [h1, Except.ok.injEq, Prod.mk.injEq] at h
                      obtain ⟨-, h2⟩ := h
                      subst h2
                      exact (ihE _ _ _ _ h1).trans' (framePair.of_fields rfl rfl)
                · simp only [evalV, if_neg hd] at h
                  cases h1 : evalV n rhs st with
                  | error er => simp [h1] at h
                  | ok p =>
                      obtain ⟨rv, st1⟩ := p
                      simp only [h1, Except.ok.injEq, Prod.mk.injEq] at h
                      obtain ⟨-, h2⟩ := h
                      subst h2
                      have hfr := ihE _ _ _ _ h1
                      refine ⟨hfr.1, fun hge => absurd ?_ hd⟩
                      omega
            | lit q => simp [evalV] at h
            | binary k l r => simp [evalV] at h
            | assignE l r => simp [evalV] at h
            | call c a => simp [evalV] at h
        | call callee args =>
            cases callee with
            | var fname =>
                cases hf : Dict.get? st.functions fname with
                | none => simp [evalV, hf] at h
                | some fn =>
                    obtain ⟨params, body⟩ := fn
                    cases hp : paramNamesV params with
                    | error er => simp [evalV, hf, hp] at h
                    | ok names =>
                        cases hA : evalArgsV n (names.zip args) [] st with
                        | error er => simp [evalV, hf, hp, hA] at h
                        | ok pA =>
                            obtain ⟨newLocals, st1⟩ := pA
                            cases hB : execV n body { st1 with locals := newLocals } with
                            | error er => simp [evalV, hf, hp, hA, hB] at h
                            | ok pB =>
                                obtain ⟨rv, st2⟩ := pB
                                simp only [evalV, hf, hp, hA, hB, Except.ok.injEq,
                                  Prod.mk.injEq] at h
                                obtain ⟨-, h2⟩ := h
                                subst h2
                                refine ((ihA _ _ _ _ _ hA).trans'
                                  (framePair.of_fields rfl rfl)).trans'
                                  ((ihS _ _ _ _ hB).trans' (framePair.of_fields rfl rfl))
            | lit q => simp [evalV] at h
            | binary k l r => simp [evalV] at h
            | assignE l r => simp [evalV] at h
            | call c a => simp [evalV] at h
      · -- evalArgsV
        intro ps acc st d st' h
        cases ps with
        | nil =>
            simp only [evalArgsV, Except.ok.injEq, Prod.mk.injEq] at h
            obtain ⟨-, h2⟩ := h
            subst h2
            exact framePair.refl' st
        | cons p rest =>
            obtain ⟨k, e⟩ := p
            cases h1 : evalV n e st with
            | error er => simp [evalArgsV, h1] at h
            | ok pr =>
                obtain ⟨v0, st1⟩ := pr
                simp only [evalArgsV, h1] at h
                exact (ihE _ _ _ _ h1).trans' (ihA _ _ _ _ _ h)
      · -- execV
        intro s st v st' h
        cases s with
        | letS e =>
            cases h1 : evalV n e st with
            | error er => simp [execV, h1] at h
            | ok p =>
                obtain ⟨v0, st1⟩ := p
                simp only [execV, h1, Except.ok.injEq, Prod.mk.injEq] at h
                obtain ⟨-, h2⟩ := h
                subst h2
                exact ihE _ _ _ _ h1
        | printS e =>
            cases h1 : evalV n e st with
            | error er => simp [execV, h1] at h
            | ok p =>
                obtain ⟨v0, st1⟩ := p
                simp only [execV, h1, Except.ok.injEq, Prod.mk.injEq] at h
                obtain ⟨-, h2⟩ := h
                subst h2
                exact (ihE _ _ _ _ h1).trans' (framePair.of_fields rfl rfl)
        | ifS cond thenB elseB =>
            cases h1 : evalV n cond st with
            | error er => simp [execV, h1] at h
            | ok p =>
                obtain ⟨v0, st1⟩ := p
                by_cases ht : truthy v0
                · simp only [execV, h1, if_pos ht] at h
                  exact (ihE _ _ _ _ h1).trans' (ihS _ _ _ _ h)
                · cases elseB with
                  | some b =>
                      simp only [execV, h1, if_neg ht] at h
                      exact (ihE _ _ _ _ h1).trans' (ihS _ _ _ _ h)
                  | none =>
                      simp only [execV, h1, if_neg ht, Except.ok.injEq,
                        Prod.mk.injEq] at h
                      obtain ⟨-, h2⟩ := h
                      subst h2
                      exact ihE _ _ _ _ h1
        | fnS name args body =>
            simp only [execV, Except.ok.injEq, Prod.mk.injEq] at h
            obtain ⟨-, h2⟩ := h
            subst h2
            exact framePair.of_fields rfl rfl
        | block body =>
            cases h1 : execVList n body { st with depth := st.depth + 1 } with
            | error er => simp [execV, h1] at h
            | ok p =>
                obtain ⟨v0, st1⟩ := p
                simp only [execV, h1, Except.ok.injEq, Prod.mk.injEq] at h
                obtain ⟨-, h2⟩ := h
                subst h2
                have hfr := ihL _ _ _ _ h1
                refine ⟨?_, fun hge => ?_⟩
                · have := hfr.1
                  simp only at this ⊢
                  omega
                · have := hfr.2 (by simp only; omega)
                  simpa using this
        | returnS e =>
            exact ihE _ _ _ _ (by simpa [execV] using h)
        | whileS cond body =>
            cases h1 : whileLoopV n cond body st with
            | error er => simp [execV, h1] at h
            | ok st1 =>
                simp only [execV, h1, Except.ok.injEq, Prod.mk.injEq] at h
                obtain ⟨-, h2⟩ := h
                subst h2
                exact ihW _ _ _ _ h1
        | forS init cond adv body =>
            cases init with
            | assignE lhs rhs =>
                cases lhs with
                | var name =>
                    cases h1 : evalV n (.assignE (.var name) rhs) st with
                    | error er => simp [execV, h1] at h
                    | ok p =>
                        obtain ⟨v0, st1⟩ := p
                        cases h2 : forLoopV n cond body adv st1 with
                        | error er => simp [execV, h1, h2] at h
                        | ok st2 =>
                            by_cases hd : st2.depth > 0
                            · cases he : Dict.erase? st2.locals name with
                              | none => simp [execV, h1, h2, if_pos hd, he] at h
                              | some dl =>
                                  simp only [execV, h1, h2, if_pos hd, he,
                                    Except.ok.injEq, Prod.mk.injEq] at h
                                  obtain ⟨-, h3⟩ := h
                                  subst h3
                                  exact ((ihE _ _ _ _ h1).trans'
                                    (ihF _ _ _ _ _ h2)).trans'
                                    (framePair.of_fields rfl rfl)
                            · cases he : Dict.erase? st2.globals name with
                              | none => simp [execV, h1, h2, if_neg hd, he] at h
                              | some dg =>
                                  simp only [execV, h1, h2, if_neg hd, he,
                                    Except.ok.injEq, Prod.mk.injEq] at h
                                  obtain ⟨-, h3⟩ := h
                                  subst h3
                                  have hfr := (ihE _ _ _ _ h1).trans' (ihF _ _ _ _ _ h2)
                                  refine ⟨hfr.1, fun hge => absurd ?_ hd⟩
                                  have := hfr.1
                                  omega
                | lit q => simp [execV] at h
                | binary k l r => simp [execV] at h
                | assignE l r => simp [execV] at h
                | call c a => simp [execV] at h
            | lit q => simp [execV] at h
            | var x => simp [execV] at h
            | binary k l r => simp [execV] at h
            | call c a => simp [execV] at h
        | exprS e =>
            cases h1 : evalV n e st with
            | error er => simp [execV, h1] at h
            | ok p =>
                obtain ⟨v0, st1⟩ := p
                simp only [execV, h1, Except.ok.injEq, Prod.mk.injEq] at h
                obtain ⟨-, h2⟩ := h
                subst h2
                exact ihE _ _ _ _ h1
      · -- execVList
        intro l st v st' h
        cases l with
        | nil =>
            simp only [execVList, Except.ok.injEq, Prod.mk.injEq] at h
            obtain ⟨-, h2⟩ := h
            subst h2
            exact framePair.refl' st
        | cons s rest =>
            cases h1 : execV n s st with
            | error er => simp [execVList, h1] at h
            | ok p =>
                obtain ⟨v0, st1⟩ := p
                cases v0 with
                | some v1 =>
                    simp only [execVList, h1, Except.ok.injEq, Prod.mk.injEq] at h
                    obtain ⟨-, h2⟩ := h
                    subst h2
                    exact ihS _ _ _ _ h1
                | none =>
                    simp only [execVList, h1] at h
                    exact (ihS _ _ _ _ h1).trans' (ihL _ _ _ _ h)
      · -- whileLoopV
        intro c b st st' h
        cases h1 : evalV n c st with
        | error er => simp [whileLoopV, h1] at h
        | ok p =>
            obtain ⟨v0, st1⟩ := p
            by_cases ht : truthy v0
            · cases h2 : execV n b st1 with
              | error er => simp [whileLoopV, h1, if_pos ht, h2] at h
              | ok p2 =>
                  obtain ⟨v1, st2⟩ := p2
                  simp only [whileLoopV, h1, if_pos ht, h2] at h
                  exact ((ihE _ _ _ _ h1).trans' (ihS _ _ _ _ h2)).trans'
                    (ihW _ _ _ _ h)
            · simp only [whileLoopV, h1, if_neg ht, Except.ok.injEq] at h
              subst h
              exact ihE _ _ _ _ h1
      · -- forLoopV
        intro c b adv st st' h
        cases h1 : evalV n c st with
        | error er => simp [forLoopV, h1] at h
        | ok p =>
            obtain ⟨v0, st1⟩ := p
            by_cases ht : truthy v0
            · cases h2 : execV n b st1 with
              | error er => simp [forLoopV, h1, if_pos ht, h2] at h
              | ok p2 =>
                  obtain ⟨v1, st2⟩ := p2
                  cases h3 : evalV n adv st2 with
                  | error er => simp [forLoopV, h1, if_pos ht, h2, h3] at h
                  | ok p3 =>
                      obtain ⟨v2, st3⟩ := p3
                      simp only [forLoopV, h1, if_pos ht, h2, h3] at h
                      exact (((ihE _ _ _ _ h1).trans' (ihS _ _ _ _ h2)).trans'
                        (ihE _ _ _ _ h3)).trans' (ihF _ _ _ _ _ h)
            · simp only [forLoopV, h1, if_neg ht, Except.ok.injEq] at h
              subst h
              exact ihE _ _ _ _ h1

/-- On operator-only expressions with enough fuel, the prototype
evaluator returns exactly the reference value (state unchanged), or the
zero-division failure. -/
theorem evalP_arith (a : ArithExpr) : ∀ n st, a.size ≤ n →
    evalP n a.toProto st =
      (match aEval a with
       | some v => .ok (some v, st)
       | none => .error .zeroDivision) := by
  induction a with
  | lit q =>
      intro n st h
      simp only [ArithExpr.size] at h
      cases n with
      | zero => omega
      | succ m => simp [evalP, ArithExpr.toProto, aEval]
  | bin op l r ihl ihr =>
      intro n st h
      simp only [ArithExpr.size] at h
      cases n with
      | zero => omega
      | succ m =>
          have hl : l.size ≤ m := by omega
          have hr : r.size ≤ m := by omega
          have hne : op.toP ≠ PBinKind.assign := by cases op <;> simp [AOp.toP]
          simp only [ArithExpr.toProto, evalP, if_neg hne, ihl m st hl]
          cases haL : aEval l with
          | none => simp [aEval, haL]
          | some va =>
              simp only [ihr m st hr]
              cases haR : aEval r with
              | none => simp [aEval, haL, haR]
              | some vb =>
                  cases op <;>
                    simp [aEval, haL, haR, applyBinP, AOp.toP] <;>
                    by_cases hz : vb = 0 <;>
                    simp [hz]

/-- On operator-only expressions with enough fuel, the extended
evaluator returns exactly the reference value (state unchanged), or the
zero-division failure — the same characterization as the prototype's. -/
theorem evalV_arith (a : ArithExpr) : ∀ n st, a.size ≤ n →
    evalV n a.toExt st =
      (match aEval a with
       | some v => .ok (some v, st)
       | none => .error .zeroDivision) := by
  induction a with
  | lit q =>
      intro n st h
      simp only [ArithExpr.size] at h
      cases n with
      | zero => omega
      | succ m => simp [evalV, ArithExpr.toExt, aEval]
  | bin op l r ihl ihr =>
      intro n st h
      simp only [ArithExpr.size] at h
      cases n with
      | zero => omega
      | succ m =>
          have hl : l.size ≤ m := by omega
          have hr : r.size ≤ m := by omega
          have hne : op.toV ≠ VBinKind.assign := by cases op <;> simp [AOp.toV]
          simp only [ArithExpr.toExt, evalV, if_neg hne, ihl m st hl]
          cases haL : aEval l with
          | none => simp [aEval, haL]
          | some va =>
              simp only [ihr m st hr]
              cases haR : aEval r with
              | none => simp [aEval, haL, haR]
              | some vb =>
                  cases op <;>
                    simp [aEval, haL, haR, applyBinV, AOp.toV] <;>
                    by_cases hz : vb = 0 <;>
                    simp [hz]

/-- C1: running the prototype's fixed embedded demo program (lexing,
parsing, and executing the recursive fibonacci source in `spam.py`)
prints exactly one line, the value `55` (Python shows the float as
`55.0`), and nothing else; the program result itself is `None`. -/
theorem claimC1 : protoMainResult = .ok (none, [some 55]) := by decide

/-- C2 (counterexample): tokenizing the exact string `"iffy"` does not
terminate normally with `[IF, IDENTIFIER(fy), EOF]`; it aborts with an
index-out-of-range failure. -/
theorem claimC2_counterexample :
    tokenizeP "iffy" = .error .indexError ∧
    tokenizeP "iffy" ≠
      .ok [⟨.IF, "if"⟩, ⟨.IDENTIFIER, "fy"⟩, ⟨.EOF, ""⟩] := by
  constructor
  · decide
  · decide

/-- C2 (amended): on `"iffy"` the keyword lookahead does match the
literal suffix `"f"` without a word boundary and emits `IF`, but the
subsequent identifier scan of the remainder walks past the end of the
input, so tokenization aborts with `IndexError` — at the wrapper's fuel
and at every larger fuel (two loop iterations reach the failure). -/
theorem claimC2 :
    tokenizeP "iffy" = .error .indexError ∧
    ∀ k : Nat, tokenizeLoop (k + 2) "iffy".toList 0 [] = .error .indexError := by
  refine ⟨by decide, fun k => rfl⟩

/-- C3: in the extended interpreter, from any state with `x` bound in
globals and depth 0, entering a block (depth becomes 1) and evaluating
an assignment to `x` writes a binding for `x` into the locals mapping
and leaves the globals entry for `x` unchanged, whatever the right-hand
side does. -/
theorem claimC3 (n : Nat) (st : VSt) (x : String) (g : Val) (rhs : VExpr)
    (v : Val) (st' : VSt)
    (hd : st.depth = 0)
    (hg : Dict.get? st.globals x = some g)
    (h : evalV n (.assignE (.var x) rhs) { st with depth := st.depth + 1 } =
      .ok (v, st')) :
    (∃ rv, Dict.get? st'.locals x = some rv) ∧
    Dict.get? st'.globals x = some g := by
  match n with
  | 0 => exact Except.noConfusion h
  | j + 1 =>
      have hpos : ({ st with depth := st.depth + 1 } : VSt).depth > 0 := by
        simp only
        omega
      simp only [evalV] at h
      rw [if_pos hpos] at h
      cases hr : evalV j rhs { st with depth := st.depth + 1 } with
      | error er => rw [hr] at h; exact Except.noConfusion h
      | ok p =>
          obtain ⟨rv, st2⟩ := p
          rw [hr] at h
          simp only [Except.ok.injEq, Prod.mk.injEq] at h
          obtain ⟨-, h2⟩ := h
          subst h2
          have hfr := (frameAll j).1 _ _ _ _ hr
          have hgl : st2.globals = st.globals := by
            have := hfr.2 (by simp only; omega)
            simpa using this
          refine ⟨⟨rv, ?_⟩, ?_⟩
          · simpa using Dict.get?_insert_self st2.locals x rv
          · simpa [hgl] using hg

/-- C3 witness: a concrete run with `x` global, depth 0, block entered,
`x = 2` evaluated. -/
theorem claimC3_witness :
    (∃ rv, Dict.get? ([("x", some 2)] : Dict Val) "x" = some rv) ∧
    Dict.get? ([("x", some 1)] : Dict Val) "x" = some (some 1) :=
  claimC3 3 ⟨[("x", some 1)], [], [], 0, []⟩ "x" (some 1) (.lit 2) none
    ⟨[("x", some 1)], [("x", some 2)], [], 1, []⟩ rfl rfl rfl

/-- C4: executing `for (let i = 0; i < 3; i = i + 1) { print i; }` at
top level with depth 0 prints 0, 1, 2 in order, then deletes `i` from
globals; a subsequent read of `i` is the fatal not-defined error. -/
theorem claimC4 :
    execV 64 forDemo vSt0 =
      .ok (none, ⟨[], [], [], 0, [some 0, some 1, some 2]⟩) ∧
    Dict.get? (⟨[], [], [], 0, [some 0, some 1, some 2]⟩ : VSt).globals "i" = none ∧
    resolveV ⟨[], [], [], 0, [some 0, some 1, some 2]⟩ "i" =
      .error (.notDefined "i") ∧
    execVList 64 [forDemo, .printS (.var "i")] vSt0 =
      .error (.notDefined "i") :=
  ⟨rfl, rfl, rfl, rfl⟩

/-- C5: in the prototype, executing any `Let` statement and evaluating
any `Assign`-tagged expression abort with the generic unhandled-case
failure (the trailing `assert False`), at every fuel and state, while
the program `"let x = 1;"` parses successfully and the full pipeline
aborts exactly there. -/
theorem claimC5 :
    (∀ (n : Nat) (e : PExpr) (st : PSt),
      execPStmt (n + 1) (.letS e) st = .error .unhandledCase) ∧
    (∀ (n : Nat) (l r : PExpr) (st : PSt),
      evalP (n + 1) (.assign l r) st = .error .unhandledCase) ∧
    protoParseProgram "let x = 1;" 64 =
      .ok [.letS (.assign (.var "x") (.literal 1))] ∧
    (protoRun "let x = 1;" 64 64).map (fun r => (r.1, r.2.output)) =
      .error .unhandledCase := by
  refine ⟨fun n e st => rfl, fun n l r st => rfl, rfl, by decide⟩

/-- C6: for every expression built only from `+ - * / <` and numeric
literals, the prototype and extended evaluators produce the same result
(the same number on success, and failure exactly together, on division
by zero), in any states, with any sufficient fuel. -/
theorem claimC6 (a : ArithExpr) (n m : Nat) (st : PSt) (vst : VSt)
    (hn : a.size ≤ n) (hm : a.size ≤ m) :
    (evalP n a.toProto st).toOption.map Prod.fst =
    (evalV m a.toExt vst).toOption.map Prod.fst := by
  rw [evalP_arith a n st hn, evalV_arith a m vst hm]
  cases aEval a <;> rfl

/-- C6 witness: both evaluators compute `(1 + 2 * 3) < 7` to the same
value at a concrete fuel and state. -/
theorem claimC6_witness :
    arithDemo.size ≤ 8 ∧
    (evalP 8 arithDemo.toProto pSt0).toOption.map Prod.fst =
      (evalV 8 arithDemo.toExt vSt0).toOption.map Prod.fst :=
  ⟨by decide, claimC6 arithDemo 8 8 pSt0 vSt0 (by decide) (by decide)⟩

/-- C7: in the extended interpreter, a `While` statement that executes
successfully always yields no result (`None`), for every condition,
body, fuel and state: the loop body's return-style result is never
propagated out of the loop. -/
theorem claimC7 (fuel : Nat) (cond : VExpr) (body : VStmt) (st : VSt)
    (v : Val) (st' : VSt)
    (h : execV fuel (.whileS cond body) st = .ok (v, st')) : v = none := by
  match fuel with
  | 0 => exact Except.noConfusion h
  | n + 1 =>
      simp only [execV] at h
      cases hw : whileLoopV n cond body st with
      | error er => rw [hw] at h; exact Except.noConfusion h
      | ok st1 =>
          rw [hw] at h
          simp only [Except.ok.injEq, Prod.mk.injEq] at h
          exact h.1.symm

/-- C7 witness: a while loop with false condition runs to completion
and indeed yields `None`. -/
theorem claimC7_witness :
    execV 5 (.whileS (.lit 0) (.exprS (.lit 1))) vSt0 = .ok (none, vSt0) ∧
    (none : Val) = none :=
  ⟨rfl, claimC7 5 (.lit 0) (.exprS (.lit 1)) vSt0 none vSt0 rfl⟩

/-- C8: a prototype `If` statement never consults its else-branch — the
execution result is identical for any two else-branches — and when the
condition evaluates to a false value, neither branch executes: the
result is `None` with the state exactly as the condition evaluation
left it. -/
theorem claimC8 :
    (∀ (n : Nat) (cond : PExpr) (tb : PStmt) (eb eb' : Option PStmt) (st : PSt),
      execPStmt n (.ifS cond tb eb) st = execPStmt n (.ifS cond tb eb') st) ∧
    (∀ (n : Nat) (cond : PExpr) (tb : PStmt) (eb : Option PStmt) (st : PSt)
      (v : Val) (st1 : PSt),
      evalP n cond st = .ok (v, st1) → truthy v = false →
      execPStmt (n + 1) (.ifS cond tb eb) st = .ok (none, st1)) := by
  constructor
  · intro n cond tb eb eb' st
    cases n with
    | zero => rfl
    | succ m => rfl
  · intro n cond tb eb st v st1 h1 ht
    simp [execPStmt, h1, ht]

/-- C8 witness: `if (0) print 1; else print 2;` executes neither branch
(no output) from the empty state. -/
theorem claimC8_witness :
    evalP 3 (.literal 0) pSt0 = .ok (some 0, pSt0) ∧
    truthy (some 0) = false ∧
    execPStmt 4 (.ifS (.literal 0) (.printS (.literal 1))
      (some (.printS (.literal 2)))) pSt0 = .ok (none, pSt0) :=
  ⟨rfl, by decide,
    claimC8.2 3 (.literal 0) (.printS (.literal 1))
      (some (.printS (.literal 2))) pSt0 (some 0) pSt0 rfl (by decide)⟩

/-- C9: parsing `"1 + 2 * 3;"` with the prototype parser produces
`Add(Literal 1, Mul(Literal 2, Literal 3))` (as the sole expression
statement), and the precedence table indeed gives STAR 4 and PLUS 3, so
the multiplication binds tighter. -/
theorem claimC9 :
    protoParseProgram "1 + 2 * 3;" 64 =
      .ok [.exprS (.binary .add (.literal 1)
        (.binary .mul (.literal 2) (.literal 3)))] ∧
    precTable .STAR = 4 ∧ precTable .PLUS = 3 :=
  ⟨rfl, rfl, rfl⟩

/-- C10: executing a Block statement in the extended interpreter
restores depth to its entry value but does not restore the locals
mapping: the binding written by an assignment inside the block is still
in locals after the block exits, and a read through `resolve` finds it
there (shadowing any same-named global). -/
theorem claimC10 (n : Nat) (x : String) (rhs : VExpr) (st : VSt)
    (v : Val) (st' : VSt)
    (hd : 0 ≤ st.depth)
    (h : execV n (.block [.exprS (.assignE (.var x) rhs)]) st = .ok (v, st')) :
    st'.depth = st.depth ∧
    ∃ rv, Dict.get? st'.locals x = some rv ∧ resolveV st' x = .ok rv := by
  match n with
  | 0 => exact Except.noConfusion h
  | 1 => simp [execV, execVList] at h
  | 2 => simp [execV, execVList] at h
  | 3 => simp [execV, execVList, evalV] at h
  | j + 4 =>
      simp only [execV, execVList, evalV] at h
      have hpos : ({ st with depth := st.depth + 1 } : VSt).depth > 0 := by
        simp only
        omega
      rw [if_pos hpos] at h
      cases hr : evalV j rhs { st with depth := st.depth + 1 } with
      | error er => rw [hr] at h; exact Except.noConfusion h
      | ok p =>
          obtain ⟨rv, st2⟩ := p
          rw [hr] at h
          simp only [Except.ok.injEq, Prod.mk.injEq] at h
          obtain ⟨-, h2⟩ := h
          subst h2
          have hfr := (frameAll j).1 _ _ _ _ hr
          refine ⟨?_, ⟨rv, ?_, ?_⟩⟩
          · have := hfr.1
            simp only at this ⊢
            omega
          · simpa using Dict.get?_insert_self st2.locals x rv
          · simp only [resolveV]
            rw [show Dict.get? ({ st2 with
              locals := Dict.insert st2.locals x rv } : VSt).locals x = some rv
              from Dict.get?_insert_self st2.locals x rv]

/-- C10 witness: a concrete block `{ x = 2; }` from depth 0 with a
global `x`: depth is restored to 0, and the local binding persists and
shadows the global. -/
theorem claimC10_witness :
    (⟨[("x", some 1)], [("x", some 2)], [], 0, []⟩ : VSt).depth =
      (⟨[("x", some 1)], [], [], 0, []⟩ : VSt).depth ∧
    ∃ rv, Dict.get? ([("x", some 2)] : Dict Val) "x" = some rv ∧
      resolveV ⟨[("x", some 1)], [("x", some 2)], [], 0, []⟩ "x" = .ok rv :=
  claimC10 8 "x" (.lit 2) ⟨[("x", some 1)], [], [], 0, []⟩ none
    ⟨[("x", some 1)], [("x", some 2)], [], 0, []⟩ (by decide) rfl
